import Mathlib

/-!
Verification of the LCV allocation core of `app.py`: the stage classifier
`classify_lcvs_equally` (lines 28–48) and the route allocator
`allocate_lcv_to_route` (lines 50–111).  Pandas/numpy/stdlib calls are
modelled by Lean functions whose semantics match the library behaviour the
code relies on; each such model carries a comment naming the library call.
-/

namespace LCVApp

/-- One selected route-request row of the dataframe `selected_data`: the
columns `allocate_lcv_to_route` reads (`Request_id`, `Route_id`, `DBS`,
`Distance`, `Duration`). -/
structure Route where
  request_id : Nat
  route_id : Nat
  dbs : String
  distance : Int
  duration : Int
  deriving DecidableEq, Repr

/-- The `allocation_info` record built for one route (the dict literal at
app.py lines 62–69).  `allocated_lcv` is `Option String` as in the source,
where it is initialised to `None` and then always overwritten with either a
vehicle id or a sentinel string. -/
structure AllocationInfo where
  request_id : Nat
  route_id : Nat
  dbs : String
  distance : Int
  duration : Int
  allocated_lcv : Option String
  comment : String
  deriving DecidableEq, Repr

/-- Stable insertion of one element into a list ordered ascending by `key`. -/
def insertAscBy (key : α → Int) (a : α) : List α → List α
  | [] => [a]
  | b :: l => if key a ≤ key b then a :: b :: l else b :: insertAscBy key a l

/-- Ascending insertion sort by `key`.  A faithful model of Python's
`sorted(..., key=...)` (Timsort: stable) used by the secondary pass, and
the concrete ordering used to realize the dataframe sort below. -/
def isortAscBy (key : α → Int) : List α → List α
  | [] => []
  | a :: l => insertAscBy key a (isortAscBy key l)

/-- Models `selected_data.sort_values(by='Duration', ascending=False)`
(app.py line 57): a deterministic duration-descending reordering of the
rows, realized as reverse, ascending sort, reverse (the shape of pandas
`nargsort` for a descending sort).  pandas' default `kind='quicksort'`
is documented as not stable, so the program fixes no particular relative
order for rows of equal duration; this model picks one concrete tie
order, and no theorem below depends on which tie order that is. -/
def sort_values_duration_desc (l : List Route) : List Route :=
  (isortAscBy (fun r => r.duration) l.reverse).reverse

/-- The record the primary loop appends for `route` once `Allocated_LCV`
has been resolved to `lcv` (app.py lines 62–76). -/
def mkAllocationInfo (r : Route) (lcv : Option String) : AllocationInfo :=
  { request_id := r.request_id, route_id := r.route_id, dbs := r.dbs,
    distance := r.distance, duration := r.duration,
    allocated_lcv := lcv, comment := "" }

/-- The primary `for` loop (app.py lines 61–76): walk the sorted routes,
popping the front of `lcvs_to_allocate` while it is non-empty, otherwise
writing the sentinel string. -/
def primaryLoop : List Route → List String → List AllocationInfo
  | [], _ => []
  | r :: rs, [] => mkAllocationInfo r (some "Pending Re-allocation") :: primaryLoop rs []
  | r :: rs, c :: cs => mkAllocationInfo r (some c) :: primaryLoop rs cs

/-- The primary pass (app.py lines 56–76): sort the selected routes by
duration descending and consume the stage pool FIFO.
`lcvs_to_allocate = list(available_lcvs_in_stage)` copies the pool, so the
pure model simply reads the argument list. -/
def primary_allocations (selected_data : List Route) (available_lcvs_in_stage : List String) :
    List AllocationInfo :=
  primaryLoop (sort_values_duration_desc selected_data) available_lcvs_in_stage

/-- The pending test the secondary pass applies to a record (app.py
lines 81, 108). -/
def isPending (a : AllocationInfo) : Bool :=
  a.allocated_lcv = some "Pending Re-allocation"

/-- `primary_assigned_lcvs` (app.py line 85): the allocated values that are
neither `None` nor the pending sentinel. -/
def primary_assigned_lcvs (allocations : List AllocationInfo) : List String :=
  allocations.filterMap fun a =>
    match a.allocated_lcv with
    | none => none
    | some s => if s = "Pending Re-allocation" then none else some s

/-- `lcvs_from_other_stages` (app.py lines 87–91): walk the classification
dict in insertion order keeping every vehicle whose stage differs from the
selected one and that is not among the primary-assigned values. -/
def lcvs_from_other_stages (classification : List (String × String))
    (selected_stage_name : String) (primary_assigned : List String) : List String :=
  classification.filterMap fun p =>
    if p.2 ≠ selected_stage_name ∧ ¬ p.1 ∈ primary_assigned then some p.1 else none

/-- The inner search of the re-assignment loop (app.py lines 100–104): find
the first record whose `request_id` matches and overwrite its vehicle and
comment, then `break`. -/
def updateFirst (allocations : List AllocationInfo) (rid : Nat) (lcv : String) :
    List AllocationInfo :=
  match allocations with
  | [] => []
  | a :: rest =>
    if a.request_id = rid then
      { a with allocated_lcv := some lcv, comment := "Re-allocated from another stage" } :: rest
    else a :: updateFirst rest rid lcv

/-- The re-assignment loop (app.py lines 96–104): for each pending route in
ascending-duration order, pop the front of the other-stage pool (when
non-empty) and update the matching record. -/
def secondaryLoop : List AllocationInfo → List String → List AllocationInfo → List AllocationInfo
  | [], _, allocations => allocations
  | _ :: _, [], allocations => allocations
  | r :: rs, c :: cs, allocations => secondaryLoop rs cs (updateFirst allocations r.request_id c)

/-- The final cleanup (app.py lines 107–109): any record still holding the
pending sentinel becomes `'No LCV Available'`. -/
def final_cleanup (allocations : List AllocationInfo) : List AllocationInfo :=
  allocations.map fun a =>
    if a.allocated_lcv = some "Pending Re-allocation" then
      { a with allocated_lcv := some "No LCV Available" }
    else a

/-- `allocate_lcv_to_route` (app.py lines 50–111).  The classification dict
is modelled as its insertion-ordered association list (Python dicts iterate
in insertion order, and `classify_lcvs_equally` writes each key once). -/
def allocate_lcv_to_route (selected_data : List Route) (available_lcvs_in_stage : List String)
    (all_lcv_stages_classification : List (String × String)) (selected_stage_name : String) :
    List AllocationInfo :=
  let allocations := primary_allocations selected_data available_lcvs_in_stage
  let allocations2 :=
    if selected_data.length > 7 then
      let unassigned_routes := allocations.filter isPending
      if unassigned_routes.isEmpty then allocations
      else
        let primary_assigned := primary_assigned_lcvs allocations
        let pool := lcvs_from_other_stages all_lcv_stages_classification selected_stage_name
          primary_assigned
        let unassigned_routes_sorted_asc := isortAscBy (fun a => a.duration) unassigned_routes
        secondaryLoop unassigned_routes_sorted_asc pool allocations
    else allocations
  final_cleanup allocations2

/-- The three stage names (app.py line 33). -/
def stages : List String :=
  ["Empty - Waiting Area", "Filling – Safe Zone", "Filled – Waiting Area/Moving to DBS"]

/-- Worker for `uniqueFirst`: keep each value not seen before, first
occurrence first. -/
def uniqueFirstGo (seen : List (Option String)) : List (Option String) → List (Option String)
  | [] => []
  | x :: xs => if x ∈ seen then uniqueFirstGo seen xs else x :: uniqueFirstGo (x :: seen) xs

/-- Models `lcv_ids.unique()` (pandas Series.unique, app.py line 36): keep
the first occurrence of each value, preserving order.  A missing id is
`none`. -/
def uniqueFirst (l : List (Option String)) : List (Option String) :=
  uniqueFirstGo [] l

/-- The deduplicated non-null id list of app.py line 36:
`[lcv for lcv in lcv_ids.unique() if pd.notna(lcv)]`. -/
def unique_lcvs (lcv_ids : List (Option String)) : List String :=
  (uniqueFirst lcv_ids).filterMap id

/-- One step of the pseudo-random word generator standing in for Python's
global Mersenne Twister.  The claims depend only on the shuffle being a
permutation determined by the generator state, not on the exact stream. -/
def lcgStep (g : Nat) : Nat :=
  (6364136223846793005 * g + 1442695040888963407) % 2 ^ 64

/-- Worker for `shuffleWith`: `fuel` bounds the number of extractions (it is
supplied as the input length, which suffices). -/
def shuffleGo : Nat → Nat → List String → List String
  | 0, _, _ => []
  | fuel + 1, g, l =>
    match l with
    | [] => []
    | x :: xs =>
      let j := g % (x :: xs).length
      (x :: xs).get ⟨j, Nat.mod_lt g (Nat.succ_pos xs.length)⟩ ::
        shuffleGo fuel (lcgStep g) ((x :: xs).eraseIdx j)

/-- Models `random.shuffle` (app.py line 40) driven by generator state `g`:
a Fisher–Yates-style shuffle that repeatedly extracts the element at a
generator-chosen index.  It is a permutation of its input, and a function
of `g` and the input alone. -/
def shuffleWith (g : Nat) (l : List String) : List String :=
  shuffleGo l.length g l

/-- Models `random.seed(seed)` followed by the shuffle's read of the global
generator (app.py lines 38–40): a provided seed resets the generator to a
state that is a function of the seed alone; with no seed the ambient state
`g` is used. -/
def seed_state (seed : Option Nat) (g : Nat) : Nat :=
  match seed with
  | some s => s
  | none => g

/-- Models `np.array_split(l, 3)` (app.py line 42): three contiguous parts,
the first `l.length % 3` of size `l.length / 3 + 1`, the rest of size
`l.length / 3`. -/
def array_split3 (l : List String) : List String × List String × List String :=
  let q := l.length / 3
  let r := l.length % 3
  let s1 := q + if 1 ≤ r then 1 else 0
  let s2 := q + if 2 ≤ r then 1 else 0
  (l.take s1, (l.drop s1).take s2, (l.drop s1).drop s2)

/-- `classify_lcvs_equally` (app.py lines 28–48): dedupe and drop nulls,
seeded shuffle, split in three, and build the classification dict — written
here as its insertion-ordered association list (each key is written exactly
once, so no overwriting occurs). -/
def classify_lcvs_equally (lcv_ids : List (Option String)) (seed : Option Nat) (g : Nat) :
    List (String × String) :=
  let shuffled := shuffleWith (seed_state seed g) (unique_lcvs lcv_ids)
  let splits := array_split3 shuffled
  splits.1.map (fun l => (l, "Empty - Waiting Area")) ++
    splits.2.1.map (fun l => (l, "Filling – Safe Zone")) ++
    splits.2.2.map (fun l => (l, "Filled – Waiting Area/Moving to DBS"))

/-- The per-stage vehicle lists the app derives from the classification
(app.py lines 141–143): the keys mapped to `stage`, in dict order. -/
def stage_lcvs (classification : List (String × String)) (stage : String) : List String :=
  classification.filterMap fun p => if p.2 = stage then some p.1 else none

/-- The route fields a record carries (the first five entries of the dict at
app.py lines 62–69). -/
def AllocationInfo.routeOf (a : AllocationInfo) : Route :=
  { request_id := a.request_id, route_id := a.route_id, dbs := a.dbs,
    distance := a.distance, duration := a.duration }

/-- The overwrite performed at app.py lines 102–103. -/
def reallocRec (a : AllocationInfo) (c : String) : AllocationInfo :=
  { a with allocated_lcv := some c, comment := "Re-allocated from another stage" }

/-- The position of `rid` in a list of request ids (first match). -/
def rankOf (rids : List Nat) (rid : Nat) : Option Nat :=
  match rids with
  | [] => none
  | x :: xs => if x = rid then some 0 else (rankOf xs rid).map (· + 1)

/-- What the re-assignment loop does to one record: the record whose id has
rank `k` among `pendIds` (the pending ids in ascending-duration order) gets
the `k`-th candidate when one exists; every other record is untouched. -/
def loopOutcome (pendIds : List Nat) (cand : List String) (a : AllocationInfo) :
    AllocationInfo :=
  match rankOf pendIds a.request_id with
  | some rank =>
    match cand[rank]? with
    | some c => reallocRec a c
    | none => a
  | none => a

/-- The final value of one record once the secondary pass and the cleanup
have run: a pending record whose rank among the sorted pending ids is
covered by the candidate pool is re-allocated; any other pending record
ends as `'No LCV Available'`; a non-pending record keeps its primary
binding. -/
def secondaryOutcome (pendIds : List Nat) (cand : List String) (a : AllocationInfo) :
    AllocationInfo :=
  if a.allocated_lcv = some "Pending Re-allocation" then
    match rankOf pendIds a.request_id with
    | some rank =>
      match cand[rank]? with
      | some c => reallocRec a c
      | none => { a with allocated_lcv := some "No LCV Available" }
    | none => { a with allocated_lcv := some "No LCV Available" }
  else a

/-- The actual vehicle (non-sentinel) a record carries, if any. -/
def assignedValue (a : AllocationInfo) : Option String :=
  match a.allocated_lcv with
  | none => none
  | some s =>
    if s = "Pending Re-allocation" ∨ s = "No LCV Available" then none else some s

/-- The vehicles bound to routes in an output record list, with sentinel
values excluded. -/
def assigned_lcvs (out : List AllocationInfo) : List String :=
  out.filterMap assignedValue

/-- A concrete route row used in the example statements. -/
def mkRoute (id : Nat) (d : Int) : Route :=
  { request_id := id, route_id := id, dbs := "DBS-1", distance := 0, duration := d }

/-- A store of list objects: the mutable Python list values the allocator
can reach, addressed by index.  Used to state the frame property of
`allocate_lcv_to_route` over its `available_lcvs_in_stage` argument. -/
abbrev Store := List (List String)

/-- The primary loop acting on a pool object held in the store at `loc`:
`lcvs_to_allocate.pop(0)` mutates that one list object in place. -/
def primaryLoopSt : List Route → Nat → Store → List AllocationInfo × Store
  | [], _, store => ([], store)
  | r :: rs, loc, store =>
    match store.getD loc [] with
    | [] =>
      let res := primaryLoopSt rs loc store
      (mkAllocationInfo r (some "Pending Re-allocation") :: res.1, res.2)
    | c :: cs =>
      let res := primaryLoopSt rs loc (store.set loc cs)
      (mkAllocationInfo r (some c) :: res.1, res.2)

/-- `allocate_lcv_to_route` with its pool argument passed as a store
location: `lcvs_to_allocate = list(available_lcvs_in_stage)` (app.py
line 58) copies the argument into a fresh object — here a fresh location —
and only that copy is popped; the secondary pass builds fresh local lists
and only reads the classification.  The returned store is the post-call
heap. -/
def allocate_lcv_to_route_st (selected_data : List Route) (poolLoc : Nat)
    (all_lcv_stages_classification : List (String × String)) (selected_stage_name : String)
    (store : Store) : List AllocationInfo × Store :=
  let copyLoc := store.length
  let store1 := store ++ [store.getD poolLoc []]
  let res := primaryLoopSt (sort_values_duration_desc selected_data) copyLoc store1
  let allocations := res.1
  let allocations2 :=
    if selected_data.length > 7 then
      let unassigned_routes := allocations.filter isPending
      if unassigned_routes.isEmpty then allocations
      else
        secondaryLoop (isortAscBy (fun a => a.duration) unassigned_routes)
          (lcvs_from_other_stages all_lcv_stages_classification selected_stage_name
            (primary_assigned_lcvs allocations))
          allocations
    else allocations
  (final_cleanup allocations2, res.2)

/-! ### Lemmas about the stable sort -/

theorem insertAscBy_perm (key : α → Int) (a : α) (l : List α) :
    List.Perm (insertAscBy key a l) (a :: l) := by
  induction l with
  | nil => exact List.Perm.refl _
  | cons b t ih =>
    simp only [insertAscBy]
    split
    · exact List.Perm.refl _
    · exact (ih.cons b).trans (List.Perm.swap a b t)

theorem isortAscBy_perm (key : α → Int) (l : List α) : List.Perm (isortAscBy key l) l := by
  induction l with
  | nil => exact List.Perm.refl _
  | cons a t ih => exact (insertAscBy_perm key a _).trans (ih.cons a)

theorem pairwise_insertAscBy (key : α → Int) (a : α) (l : List α)
    (h : l.Pairwise (fun x y => key x ≤ key y)) :
    (insertAscBy key a l).Pairwise (fun x y => key x ≤ key y) := by
  induction l with
  | nil => simp [insertAscBy]
  | cons b t ih =>
    rcases List.pairwise_cons.mp h with ⟨hbt, ht⟩
    simp only [insertAscBy]
    split
    case isTrue hab =>
      refine List.pairwise_cons.mpr ⟨?_, h⟩
      intro y hy
      rcases List.mem_cons.mp hy with rfl | hyt
      · exact hab
      · exact le_trans hab (hbt y hyt)
    case isFalse hab =>
      refine List.pairwise_cons.mpr ⟨?_, ih ht⟩
      intro y hy
      rcases List.mem_cons.mp ((insertAscBy_perm key a t).mem_iff.mp hy) with rfl | hyt
      · exact le_of_lt (lt_of_not_le hab)
      · exact hbt y hyt

theorem pairwise_isortAscBy (key : α → Int) (l : List α) :
    (isortAscBy key l).Pairwise (fun x y => key x ≤ key y) := by
  induction l with
  | nil => simp [isortAscBy]
  | cons a t ih => exact pairwise_insertAscBy key a _ ih

theorem sort_values_duration_desc_perm (l : List Route) :
    List.Perm (sort_values_duration_desc l) l :=
  (List.reverse_perm _).trans ((isortAscBy_perm _ _).trans (List.reverse_perm l))

theorem sort_values_duration_desc_pairwise (l : List Route) :
    (sort_values_duration_desc l).Pairwise (fun a b => b.duration ≤ a.duration) := by
  rw [sort_values_duration_desc, List.pairwise_reverse]
  exact pairwise_isortAscBy (fun r => r.duration) l.reverse

theorem sort_values_duration_desc_length (l : List Route) :
    (sort_values_duration_desc l).length = l.length :=
  (sort_values_duration_desc_perm l).length_eq

/-! ### Lemmas about the primary loop -/

theorem primaryLoop_length (rs : List Route) (cs : List String) :
    (primaryLoop rs cs).length = rs.length := by
  induction rs generalizing cs with
  | nil => rfl
  | cons r rs ih => cases cs <;> simp [primaryLoop, ih]

theorem primaryLoop_map_routeOf (rs : List Route) (cs : List String) :
    (primaryLoop rs cs).map AllocationInfo.routeOf = rs := by
  induction rs generalizing cs with
  | nil => rfl
  | cons r rs ih =>
    cases cs <;> simp [primaryLoop, mkAllocationInfo, AllocationInfo.routeOf, ih]

theorem primaryLoop_getElem? (rs : List Route) (cs : List String) (i : Nat) :
    (primaryLoop rs cs)[i]? = (rs[i]?).map fun r =>
      mkAllocationInfo r (some ((cs[i]?).getD "Pending Re-allocation")) := by
  induction rs generalizing cs i with
  | nil => simp [primaryLoop]
  | cons r rs ih =>
    cases cs with
    | nil => cases i <;> simp [primaryLoop, ih]
    | cons c cs => cases i <;> simp [primaryLoop, ih]

theorem primary_allocations_map_routeOf (sd : List Route) (pool : List String) :
    (primary_allocations sd pool).map AllocationInfo.routeOf = sort_values_duration_desc sd :=
  primaryLoop_map_routeOf _ _

theorem primary_allocations_length (sd : List Route) (pool : List String) :
    (primary_allocations sd pool).length = sd.length := by
  rw [primary_allocations, primaryLoop_length, sort_values_duration_desc_length]

theorem primary_allocations_pairwise (sd : List Route) (pool : List String) :
    (primary_allocations sd pool).Pairwise (fun a b => b.duration ≤ a.duration) := by
  have h := sort_values_duration_desc_pairwise sd
  rw [← primary_allocations_map_routeOf sd pool, List.pairwise_map] at h
  exact h

/-- C1: on every non-empty route selection the primary pass emits one record
per route, carrying exactly the duration-descending-sorted routes, and the
i-th record in that order receives the i-th pool vehicle, with every record
beyond the pool's length receiving the sentinel instead; concretely,
durations [10, 50, 30] with pool [A, B] yield output order (50, 30, 10)
with A on the duration-50 route, B on the duration-30 route, and the final
sentinel on the duration-10 route. -/
theorem primary_pass_descending_fifo :
    (∀ (selected_data : List Route) (pool : List String), selected_data ≠ [] →
      (primary_allocations selected_data pool).map AllocationInfo.routeOf =
          sort_values_duration_desc selected_data ∧
      (primary_allocations selected_data pool).Pairwise (fun a b => b.duration ≤ a.duration) ∧
      ∀ i : Nat, ((primary_allocations selected_data pool).map
            (fun a => a.allocated_lcv))[i]? =
          if i < selected_data.length then
            some (some ((pool[i]?).getD "Pending Re-allocation"))
          else none) ∧
    ((allocate_lcv_to_route [mkRoute 1 10, mkRoute 2 50, mkRoute 3 30] ["A", "B"] [] "Stage").map
        fun a => (a.duration, a.allocated_lcv)) =
      [(50, some "A"), (30, some "B"), (10, some "No LCV Available")] := by
  constructor
  · intro sd pool _
    refine ⟨primary_allocations_map_routeOf sd pool, primary_allocations_pairwise sd pool, ?_⟩
    intro i
    rw [List.getElem?_map, primary_allocations, primaryLoop_getElem?]
    by_cases hi : i < sd.length
    · have hi2 : i < (sort_values_duration_desc sd).length := by
        rwa [sort_values_duration_desc_length]
      rw [List.getElem?_eq_getElem hi2]
      simp [hi, mkAllocationInfo]
    · have hi2 : (sort_values_duration_desc sd).length ≤ i := by
        rw [sort_values_duration_desc_length]; omega
      rw [List.getElem?_eq_none hi2]
      simp [hi]
  · rfl

theorem primary_pass_descending_fifo_witness :
    (primary_allocations [mkRoute 1 10, mkRoute 2 50, mkRoute 3 30] ["A", "B"]).map
        AllocationInfo.routeOf =
      sort_values_duration_desc [mkRoute 1 10, mkRoute 2 50, mkRoute 3 30] :=
  (primary_pass_descending_fifo.1 _ ["A", "B"] (by decide)).1

/-! ### Lemmas about the secondary machinery -/

theorem updateFirst_map_request_id (l : List AllocationInfo) (rid : Nat) (c : String) :
    (updateFirst l rid c).map (fun a => a.request_id) = l.map (fun a => a.request_id) := by
  induction l with
  | nil => rfl
  | cons a rest ih =>
    rw [updateFirst]
    split <;> simp [ih]

theorem updateFirst_length (l : List AllocationInfo) (rid : Nat) (c : String) :
    (updateFirst l rid c).length = l.length := by
  have h := congrArg List.length (updateFirst_map_request_id l rid c)
  simpa using h

theorem secondaryLoop_map_request_id (pend : List AllocationInfo) (cand : List String)
    (allocs : List AllocationInfo) :
    (secondaryLoop pend cand allocs).map (fun a => a.request_id) =
      allocs.map (fun a => a.request_id) := by
  induction pend generalizing cand allocs with
  | nil => rfl
  | cons p ps ih =>
    cases cand with
    | nil => rfl
    | cons c cs => rw [secondaryLoop, ih, updateFirst_map_request_id]

theorem secondaryLoop_length (pend : List AllocationInfo) (cand : List String)
    (allocs : List AllocationInfo) :
    (secondaryLoop pend cand allocs).length = allocs.length := by
  have h := congrArg List.length (secondaryLoop_map_request_id pend cand allocs)
  simpa using h

theorem secondaryLoop_nil_cand (pend : List AllocationInfo) (allocs : List AllocationInfo) :
    secondaryLoop pend [] allocs = allocs := by
  cases pend <;> rfl

theorem final_cleanup_length (l : List AllocationInfo) :
    (final_cleanup l).length = l.length := by
  simp [final_cleanup]

theorem primaryLoop_nil_pool (rs : List Route) :
    ∀ a ∈ primaryLoop rs [], a.allocated_lcv = some "Pending Re-allocation" := by
  induction rs with
  | nil => intro a ha; cases ha
  | cons r rs ih =>
    intro a ha
    rcases List.mem_cons.mp ha with rfl | ha
    · rfl
    · exact ih a ha

/-- C7: the allocator is total — it returns exactly one record per selected
route on every input, an empty selection yields the empty record list, and
with no vehicles anywhere every route's record carries the
`'No LCV Available'` sentinel rather than an error. -/
theorem allocator_totality :
    (∀ (sd : List Route) (pool : List String) (cls : List (String × String)) (st : String),
      (allocate_lcv_to_route sd pool cls st).length = sd.length) ∧
    (∀ (pool : List String) (cls : List (String × String)) (st : String),
      allocate_lcv_to_route [] pool cls st = []) ∧
    (∀ (sd : List Route) (st : String), ∀ a ∈ allocate_lcv_to_route sd [] [] st,
      a.allocated_lcv = some "No LCV Available") := by
  refine ⟨?_, ?_, ?_⟩
  · intro sd pool cls st
    simp only [allocate_lcv_to_route]
    rw [final_cleanup_length]
    split
    · split
      · exact primary_allocations_length sd pool
      · rw [secondaryLoop_length]
        exact primary_allocations_length sd pool
    · exact primary_allocations_length sd pool
  · intro pool cls st
    rfl
  · intro sd st a ha
    have hform : allocate_lcv_to_route sd [] [] st =
        final_cleanup (primary_allocations sd []) := by
      simp only [allocate_lcv_to_route, lcvs_from_other_stages, List.filterMap_nil,
        secondaryLoop_nil_cand]
      split <;> [split <;> rfl; rfl]
    rw [hform] at ha
    rcases List.mem_map.mp ha with ⟨b, hb, rfl⟩
    have hp := primaryLoop_nil_pool _ b hb
    simp [hp]

theorem allocator_totality_witness :
    allocate_lcv_to_route [] ["A"] [] "Stage" = [] :=
  allocator_totality.2.1 ["A"] [] "Stage"

/-- Case analysis of `allocate_lcv_to_route`: the secondary loop runs
exactly under the guard of app.py lines 79–83. -/
theorem allocate_lcv_to_route_eq_ite (sd : List Route) (pool : List String)
    (cls : List (String × String)) (st : String) :
    allocate_lcv_to_route sd pool cls st =
      if 7 < sd.length ∧ (primary_allocations sd pool).filter isPending ≠ [] then
        final_cleanup
          (secondaryLoop
            (isortAscBy (fun a => a.duration) ((primary_allocations sd pool).filter isPending))
            (lcvs_from_other_stages cls st
              (primary_assigned_lcvs (primary_allocations sd pool)))
            (primary_allocations sd pool))
      else final_cleanup (primary_allocations sd pool) := by
  simp only [allocate_lcv_to_route]
  by_cases h7 : 7 < sd.length
  · by_cases hp : (primary_allocations sd pool).filter isPending = []
    · simp [h7, hp, List.isEmpty_iff]
    · simp [h7, hp, List.isEmpty_iff]
  · simp [h7]

/-- C3: the secondary pass runs exactly when more than 7 routes are selected
and at least one record is left pending by the primary pass — otherwise the
output is the cleaned-up primary pass alone; in particular with exactly 7
selected routes the output is the cleaned-up primary pass even when pending
routes and other-stage vehicles exist (no re-allocation comment appears),
while the same situation with 8 routes does re-allocate. -/
theorem secondary_pass_trigger :
    (∀ (sd : List Route) (pool : List String) (cls : List (String × String)) (st : String),
      allocate_lcv_to_route sd pool cls st =
        if 7 < sd.length ∧ (primary_allocations sd pool).filter isPending ≠ [] then
          final_cleanup
            (secondaryLoop
              (isortAscBy (fun a => a.duration) ((primary_allocations sd pool).filter isPending))
              (lcvs_from_other_stages cls st
                (primary_assigned_lcvs (primary_allocations sd pool)))
              (primary_allocations sd pool))
        else final_cleanup (primary_allocations sd pool)) ∧
    (∀ (sd : List Route) (pool : List String) (cls : List (String × String)) (st : String),
      sd.length = 7 →
      allocate_lcv_to_route sd pool cls st = final_cleanup (primary_allocations sd pool)) ∧
    ((allocate_lcv_to_route
        [mkRoute 1 10, mkRoute 2 20, mkRoute 3 30, mkRoute 4 40, mkRoute 5 50, mkRoute 6 60,
          mkRoute 7 70]
        [] [("Q1", "T"), ("Q2", "T")] "S").map (fun a => (a.allocated_lcv, a.comment)) =
      List.replicate 7 (some "No LCV Available", "")) ∧
    ((allocate_lcv_to_route
        [mkRoute 1 10, mkRoute 2 20, mkRoute 3 30, mkRoute 4 40, mkRoute 5 50, mkRoute 6 60,
          mkRoute 7 70, mkRoute 8 80]
        [] [("Q1", "T"), ("Q2", "T")] "S").map
          (fun a => (a.request_id, a.allocated_lcv, a.comment)) =
      [(8, some "No LCV Available", ""), (7, some "No LCV Available", ""),
        (6, some "No LCV Available", ""), (5, some "No LCV Available", ""),
        (4, some "No LCV Available", ""), (3, some "No LCV Available", ""),
        (2, some "Q2", "Re-allocated from another stage"),
        (1, some "Q1", "Re-allocated from another stage")]) := by
  refine ⟨allocate_lcv_to_route_eq_ite, ?_, by rfl, by rfl⟩
  intro sd pool cls st hlen
  rw [allocate_lcv_to_route_eq_ite sd pool cls st, if_neg]
  simp [hlen]

theorem map_eq_self_of {l : List α} {f : α → α} (h : ∀ a ∈ l, f a = a) : l.map f = l := by
  induction l with
  | nil => rfl
  | cons a t ih =>
    rw [List.map_cons, h a (List.mem_cons_self a t),
      ih (fun b hb => h b (List.mem_cons_of_mem a hb))]

theorem rankOf_eq_none_of_not_mem {rids : List Nat} {rid : Nat} (h : rid ∉ rids) :
    rankOf rids rid = none := by
  induction rids with
  | nil => rfl
  | cons x xs ih =>
    rw [rankOf, if_neg (fun hx => h (by rw [← hx]; exact List.mem_cons_self x xs)),
      ih (fun hm => h (List.mem_cons_of_mem x hm))]
    rfl

theorem rankOf_isSome_of_mem {rids : List Nat} {rid : Nat} (h : rid ∈ rids) :
    ∃ k, rankOf rids rid = some k := by
  induction rids with
  | nil => cases h
  | cons x xs ih =>
    by_cases hx : x = rid
    · exact ⟨0, by rw [rankOf, if_pos hx]⟩
    · rcases ih ((List.mem_cons.mp h).resolve_left (fun he => hx he.symm)) with ⟨k, hk⟩
      exact ⟨k + 1, by rw [rankOf, if_neg hx, hk]; rfl⟩

theorem loopOutcome_rank_none {pendIds : List Nat} {cand : List String} {a : AllocationInfo}
    (h : rankOf pendIds a.request_id = none) : loopOutcome pendIds cand a = a := by
  rw [loopOutcome, h]

theorem loopOutcome_rank_some_get {pendIds : List Nat} {cand : List String}
    {a : AllocationInfo} {k : Nat} {c : String} (h : rankOf pendIds a.request_id = some k)
    (hc : cand[k]? = some c) : loopOutcome pendIds cand a = reallocRec a c := by
  rw [loopOutcome, h]
  simp [hc]

theorem loopOutcome_rank_some_none {pendIds : List Nat} {cand : List String}
    {a : AllocationInfo} {k : Nat} (h : rankOf pendIds a.request_id = some k)
    (hc : cand[k]? = none) : loopOutcome pendIds cand a = a := by
  rw [loopOutcome, h]
  simp [hc]

theorem updateFirst_eq_map {l : List AllocationInfo} (rid : Nat) (c : String)
    (h : (l.map (fun a => a.request_id)).Nodup) :
    updateFirst l rid c =
      l.map (fun a => if a.request_id = rid then reallocRec a c else a) := by
  induction l with
  | nil => rfl
  | cons a rest ih =>
    rw [List.map_cons, List.nodup_cons] at h
    rw [updateFirst, List.map_cons]
    by_cases ha : a.request_id = rid
    · rw [if_pos ha, if_pos ha]
      have hrest : rest.map (fun b => if b.request_id = rid then reallocRec b c else b) = rest := by
        refine map_eq_self_of ?_
        intro b hb
        rw [if_neg]
        intro hbrid
        exact h.1 (ha ▸ hbrid ▸ List.mem_map_of_mem (fun a => a.request_id) hb)
      rw [hrest, reallocRec]
    · rw [if_neg ha, if_neg ha, ih h.2]

theorem loopOutcome_cons (p : Nat) (ps : List Nat) (c : String) (cs : List String)
    (hp : p ∉ ps) (a : AllocationInfo) :
    loopOutcome (p :: ps) (c :: cs) a =
      loopOutcome ps cs (if a.request_id = p then reallocRec a c else a) := by
  by_cases h : a.request_id = p
  · rw [if_pos h]
    have h1 : rankOf (p :: ps) a.request_id = some 0 := by
      rw [rankOf, if_pos h.symm]
    have h2 : rankOf ps (reallocRec a c).request_id = none :=
      rankOf_eq_none_of_not_mem (by simpa [reallocRec, h] using hp)
    rw [loopOutcome_rank_some_get h1 (show (c :: cs)[0]? = some c by simp), loopOutcome_rank_none h2]
  · rw [if_neg h]
    have h1 : rankOf (p :: ps) a.request_id = (rankOf ps a.request_id).map (· + 1) := by
      rw [rankOf, if_neg (fun hx => h hx.symm)]
    cases hk : rankOf ps a.request_id with
    | none =>
      rw [loopOutcome_rank_none (by rw [h1, hk]; rfl), loopOutcome_rank_none hk]
    | some k =>
      have h1' : rankOf (p :: ps) a.request_id = some (k + 1) := by rw [h1, hk]; rfl
      cases hc : cs[k]? with
      | none =>
        rw [loopOutcome_rank_some_none h1' (by rw [List.getElem?_cons_succ]; exact hc),
          loopOutcome_rank_some_none hk hc]
      | some v =>
        rw [loopOutcome_rank_some_get h1' (by rw [List.getElem?_cons_succ]; exact hc),
          loopOutcome_rank_some_get hk hc]

theorem secondaryLoop_eq_map (pend : List AllocationInfo) (cand : List String)
    (allocs : List AllocationInfo)
    (hn : (allocs.map (fun a => a.request_id)).Nodup)
    (hpn : (pend.map (fun a => a.request_id)).Nodup) :
    secondaryLoop pend cand allocs =
      allocs.map (loopOutcome (pend.map (fun a => a.request_id)) cand) := by
  induction pend generalizing cand allocs with
  | nil =>
    refine (map_eq_self_of ?_).symm
    intro a _
    exact loopOutcome_rank_none (by rw [List.map_nil]; rfl)
  | cons p ps ih =>
    cases cand with
    | nil =>
      refine (map_eq_self_of ?_).symm
      intro a _
      rcases hr : rankOf ((p :: ps).map (fun a => a.request_id)) a.request_id with _ | k
      · exact loopOutcome_rank_none hr
      · exact loopOutcome_rank_some_none hr (by rfl)
    | cons c cs =>
      rw [List.map_cons, List.nodup_cons] at hpn
      rw [secondaryLoop, ih cs _ (by rw [updateFirst_map_request_id]; exact hn) hpn.2,
        updateFirst_eq_map p.request_id c hn, List.map_map]
      refine List.map_congr_left ?_
      intro a _
      exact (loopOutcome_cons p.request_id (ps.map (fun a => a.request_id)) c cs hpn.1 a).symm

theorem primaryLoop_map_request_id (rs : List Route) (cs : List String) :
    (primaryLoop rs cs).map (fun a => a.request_id) = rs.map (fun r => r.request_id) := by
  induction rs generalizing cs with
  | nil => rfl
  | cons r rs ih => cases cs <;> simp [primaryLoop, mkAllocationInfo, ih]

theorem primary_allocations_nodup_rid {sd : List Route} (pool : List String)
    (h : (sd.map (fun r => r.request_id)).Nodup) :
    ((primary_allocations sd pool).map (fun a => a.request_id)).Nodup := by
  rw [primary_allocations, primaryLoop_map_request_id]
  exact (((sort_values_duration_desc_perm sd).map _).nodup_iff).mpr h

theorem sorted_pending_nodup_rid {l : List AllocationInfo}
    (h : (l.map (fun a => a.request_id)).Nodup) :
    ((isortAscBy (fun a => a.duration) (l.filter isPending)).map
      (fun a => a.request_id)).Nodup := by
  have h1 : ((l.filter isPending).map (fun a => a.request_id)).Nodup :=
    ((List.filter_sublist l (p := isPending)).map _).nodup h
  exact (((isortAscBy_perm _ _).map _).nodup_iff).mpr h1

theorem primary_assigned_nil_pool (rs : List Route) :
    primary_assigned_lcvs (primaryLoop rs []) = [] := by
  induction rs with
  | nil => rfl
  | cons r rs ih =>
    simpa [primaryLoop, primary_assigned_lcvs, List.filterMap_cons, mkAllocationInfo] using ih

theorem primary_assigned_primaryLoop (rs : List Route) (cs : List String)
    (h : ¬ "Pending Re-allocation" ∈ cs) :
    primary_assigned_lcvs (primaryLoop rs cs) = cs.take rs.length := by
  induction rs generalizing cs with
  | nil => simp [primaryLoop, primary_assigned_lcvs]
  | cons r rs ih =>
    cases cs with
    | nil =>
      rw [List.take_nil]
      exact primary_assigned_nil_pool (r :: rs)
    | cons c cs =>
      have hc : c ≠ "Pending Re-allocation" := by
        intro hcc
        exact h (hcc ▸ List.mem_cons_self c cs)
      have hcs : ¬ "Pending Re-allocation" ∈ cs := fun hm => h (List.mem_cons_of_mem c hm)
      simp only [primaryLoop, primary_assigned_lcvs, List.filterMap_cons, mkAllocationInfo]
      rw [if_neg hc]
      simp only [List.length_cons, List.take_succ_cons]
      rw [← primary_assigned_lcvs, ih cs hcs]

theorem mem_lcvs_from_other_stages {cls : List (String × String)} {st : String}
    {pa : List String} {c : String} (h : c ∈ lcvs_from_other_stages cls st pa) :
    ∃ p ∈ cls, p.1 = c ∧ p.2 ≠ st ∧ ¬ c ∈ pa := by
  rcases List.mem_filterMap.mp h with ⟨p, hp, hf⟩
  by_cases hcond : p.2 ≠ st ∧ ¬ p.1 ∈ pa
  · rw [if_pos hcond] at hf
    cases hf
    exact ⟨p, hp, rfl, hcond.1, hcond.2⟩
  · rw [if_neg hcond] at hf
    cases hf

theorem secondaryOutcome_not_pending {pendIds : List Nat} {cand : List String}
    {a : AllocationInfo} (h : ¬ a.allocated_lcv = some "Pending Re-allocation") :
    secondaryOutcome pendIds cand a = a := by
  rw [secondaryOutcome, if_neg h]

theorem secondaryOutcome_rank_none {pendIds : List Nat} {cand : List String}
    {a : AllocationInfo} (h : a.allocated_lcv = some "Pending Re-allocation")
    (hr : rankOf pendIds a.request_id = none) :
    secondaryOutcome pendIds cand a = { a with allocated_lcv := some "No LCV Available" } := by
  rw [secondaryOutcome, if_pos h, hr]

theorem secondaryOutcome_rank_some_get {pendIds : List Nat} {cand : List String}
    {a : AllocationInfo} {k : Nat} {c : String}
    (h : a.allocated_lcv = some "Pending Re-allocation")
    (hr : rankOf pendIds a.request_id = some k) (hc : cand[k]? = some c) :
    secondaryOutcome pendIds cand a = reallocRec a c := by
  rw [secondaryOutcome, if_pos h, hr]
  simp [hc]

theorem secondaryOutcome_rank_some_none {pendIds : List Nat} {cand : List String}
    {a : AllocationInfo} {k : Nat} (h : a.allocated_lcv = some "Pending Re-allocation")
    (hr : rankOf pendIds a.request_id = some k) (hc : cand[k]? = none) :
    secondaryOutcome pendIds cand a = { a with allocated_lcv := some "No LCV Available" } := by
  rw [secondaryOutcome, if_pos h, hr]
  simp [hc]

/-- C2: whenever the secondary pass runs (more than 7 routes selected and at
least one record pending, with distinct request ids and sentinel-free
vehicle names), the final output is the primary pass with each record
rewritten so that the pending record of ascending-duration rank k is bound
to the k-th candidate — the candidates being exactly the vehicles classified
to another stage minus the pool prefix the primary pass consumed, in dict
order — with comment `'Re-allocated from another stage'`, while every
pending record beyond the candidate pool ends `'No LCV Available'`;
concretely with 8 routes, a 3-vehicle stage pool and 2 other-stage
vehicles, exactly the two shortest-duration pending routes are re-allocated
and the remaining three get `'No LCV Available'`. -/
theorem secondary_pass_reallocation :
    (∀ (sd : List Route) (pool : List String) (cls : List (String × String)) (st : String),
      (sd.map (fun r => r.request_id)).Nodup →
      ¬ "Pending Re-allocation" ∈ pool →
      (∀ p ∈ cls, p.1 ≠ "Pending Re-allocation") →
      7 < sd.length →
      (primary_allocations sd pool).filter isPending ≠ [] →
      allocate_lcv_to_route sd pool cls st =
        (primary_allocations sd pool).map
          (secondaryOutcome
            ((isortAscBy (fun a => a.duration)
                ((primary_allocations sd pool).filter isPending)).map fun a => a.request_id)
            (lcvs_from_other_stages cls st (pool.take sd.length)))) ∧
    ((allocate_lcv_to_route
        [mkRoute 1 10, mkRoute 2 20, mkRoute 3 30, mkRoute 4 40, mkRoute 5 50, mkRoute 6 60,
          mkRoute 7 70, mkRoute 8 80]
        ["P1", "P2", "P3"]
        [("P1", "S"), ("P2", "S"), ("P3", "S"), ("Q1", "T"), ("Q2", "T")] "S").map
          (fun a => (a.request_id, a.allocated_lcv, a.comment)) =
      [(8, some "P1", ""), (7, some "P2", ""), (6, some "P3", ""),
        (5, some "No LCV Available", ""), (4, some "No LCV Available", ""),
        (3, some "No LCV Available", ""),
        (2, some "Q2", "Re-allocated from another stage"),
        (1, some "Q1", "Re-allocated from another stage")]) := by
  constructor
  · intro sd pool cls st hnodup hpool hcls h7 hpend
    have hprim : ((primary_allocations sd pool).map (fun a => a.request_id)).Nodup :=
      primary_allocations_nodup_rid pool hnodup
    have hpn : ((isortAscBy (fun a => a.duration)
        ((primary_allocations sd pool).filter isPending)).map (fun a => a.request_id)).Nodup :=
      sorted_pending_nodup_rid hprim
    rw [allocate_lcv_to_route_eq_ite, if_pos ⟨h7, hpend⟩,
      secondaryLoop_eq_map _ _ _ hprim hpn]
    have hpa : primary_assigned_lcvs (primary_allocations sd pool) = pool.take sd.length := by
      rw [primary_allocations, primary_assigned_primaryLoop _ _ hpool,
        sort_values_duration_desc_length]
    rw [hpa, final_cleanup, List.map_map]
    refine List.map_congr_left ?_
    intro a ha
    simp only [Function.comp_apply]
    by_cases hap : a.allocated_lcv = some "Pending Re-allocation"
    · have hmem : a.request_id ∈ (isortAscBy (fun a => a.duration)
          ((primary_allocations sd pool).filter isPending)).map (fun a => a.request_id) := by
        refine List.mem_map_of_mem _ ?_
        refine (isortAscBy_perm _ _).mem_iff.mpr ?_
        exact List.mem_filter.mpr ⟨ha, by simp [isPending, hap]⟩
      rcases rankOf_isSome_of_mem hmem with ⟨k, hk⟩
      cases hc : (lcvs_from_other_stages cls st (pool.take sd.length))[k]? with
      | some c =>
        have hcne : ¬ (reallocRec a c).allocated_lcv = some "Pending Re-allocation" := by
          rcases mem_lcvs_from_other_stages (List.getElem?_mem hc) with ⟨p, hp, hpc, _, _⟩
          intro he
          have hce : c = "Pending Re-allocation" := by simpa [reallocRec] using he
          exact hcls p hp (hpc.trans hce)
        rw [loopOutcome_rank_some_get hk hc, secondaryOutcome_rank_some_get hap hk hc,
          if_neg hcne]
      | none =>
        rw [loopOutcome_rank_some_none hk hc, secondaryOutcome_rank_some_none hap hk hc,
          if_pos hap]
    · have hnm : ¬ a.request_id ∈ (isortAscBy (fun a => a.duration)
          ((primary_allocations sd pool).filter isPending)).map (fun a => a.request_id) := by
        intro hmem
        rcases List.mem_map.mp hmem with ⟨b, hb, hbrid⟩
        have hbfilter : b ∈ (primary_allocations sd pool).filter isPending :=
          (isortAscBy_perm _ _).mem_iff.mp hb
        rcases List.mem_filter.mp hbfilter with ⟨hbmem, hbpend⟩
        have hba : b = a := List.inj_on_of_nodup_map hprim hbmem ha hbrid
        rw [hba] at hbpend
        exact hap (by simpa [isPending] using hbpend)
      rw [loopOutcome_rank_none (rankOf_eq_none_of_not_mem hnm),
        secondaryOutcome_not_pending hap, if_neg hap]
  · rfl

theorem secondary_pass_reallocation_witness :
    allocate_lcv_to_route
        [mkRoute 1 10, mkRoute 2 20, mkRoute 3 30, mkRoute 4 40, mkRoute 5 50, mkRoute 6 60,
          mkRoute 7 70, mkRoute 8 80] [] [("Q1", "T"), ("Q2", "T")] "S" =
      (primary_allocations
        [mkRoute 1 10, mkRoute 2 20, mkRoute 3 30, mkRoute 4 40, mkRoute 5 50, mkRoute 6 60,
          mkRoute 7 70, mkRoute 8 80] []).map
        (secondaryOutcome
          ((isortAscBy (fun a => a.duration)
              ((primary_allocations
                [mkRoute 1 10, mkRoute 2 20, mkRoute 3 30, mkRoute 4 40, mkRoute 5 50,
                  mkRoute 6 60, mkRoute 7 70, mkRoute 8 80] []).filter isPending)).map
            fun a => a.request_id)
          (lcvs_from_other_stages [("Q1", "T"), ("Q2", "T")] "S" ([].take 8))) :=
  secondary_pass_reallocation.1 _ [] [("Q1", "T"), ("Q2", "T")] "S" (by decide) (by decide)
    (by decide) (by decide) (by decide)

theorem secondary_pass_trigger_witness :
    allocate_lcv_to_route
        [mkRoute 1 10, mkRoute 2 20, mkRoute 3 30, mkRoute 4 40, mkRoute 5 50, mkRoute 6 60,
          mkRoute 7 70] [] [("Q1", "T"), ("Q2", "T")] "S" =
      final_cleanup (primary_allocations
        [mkRoute 1 10, mkRoute 2 20, mkRoute 3 30, mkRoute 4 40, mkRoute 5 50, mkRoute 6 60,
          mkRoute 7 70] []) :=
  secondary_pass_trigger.2.1 _ [] [("Q1", "T"), ("Q2", "T")] "S" (by decide)

/-! ### Lemmas for vehicle uniqueness -/

theorem filterMap_sublist_of {f g : α → Option β}
    (h : ∀ (a : α) (b : β), f a = some b → g a = some b) (l : List α) :
    List.Sublist (l.filterMap f) (l.filterMap g) := by
  induction l with
  | nil => exact List.Sublist.refl []
  | cons a t ih =>
    rw [List.filterMap_cons, List.filterMap_cons]
    cases hfa : f a with
    | none =>
      cases g a with
      | none => exact ih
      | some c => exact ih.cons c
    | some b =>
      rw [h a b hfa]
      exact ih.cons₂ b

theorem assignedValue_pending {a : AllocationInfo}
    (h : a.allocated_lcv = some "Pending Re-allocation") : assignedValue a = none := by
  simp [assignedValue, h]

theorem assignedValue_of_none {a : AllocationInfo} (ha : a.allocated_lcv = none) :
    assignedValue a = none := by
  rw [assignedValue, ha]

theorem assignedValue_of_some {a : AllocationInfo} {s : String} (ha : a.allocated_lcv = some s) :
    assignedValue a =
      if s = "Pending Re-allocation" ∨ s = "No LCV Available" then none else some s := by
  rw [assignedValue, ha]

theorem assignedValue_eq_some {a : AllocationInfo} {v : String}
    (h : assignedValue a = some v) :
    a.allocated_lcv = some v ∧ v ≠ "Pending Re-allocation" ∧ v ≠ "No LCV Available" := by
  cases ha : a.allocated_lcv with
  | none => rw [assignedValue_of_none ha] at h; cases h
  | some s =>
    rw [assignedValue_of_some ha] at h
    by_cases hs : s = "Pending Re-allocation" ∨ s = "No LCV Available"
    · rw [if_pos hs] at h; cases h
    · rw [if_neg hs] at h
      injection h with hsv
      subst hsv
      exact ⟨rfl, fun h1 => hs (Or.inl h1), fun h2 => hs (Or.inr h2)⟩

theorem assigned_lcvs_final_cleanup (l : List AllocationInfo) :
    assigned_lcvs (final_cleanup l) = assigned_lcvs l := by
  rw [assigned_lcvs, assigned_lcvs, final_cleanup, List.filterMap_map]
  refine List.filterMap_congr ?_
  intro a _
  simp only [Function.comp_apply]
  by_cases h : a.allocated_lcv = some "Pending Re-allocation"
  · rw [if_pos h, assignedValue_pending h]
    simp [assignedValue]
  · rw [if_neg h]

theorem assigned_sublist_primary_assigned (l : List AllocationInfo) :
    List.Sublist (assigned_lcvs l) (primary_assigned_lcvs l) := by
  refine filterMap_sublist_of ?_ l
  intro a v h
  rcases assignedValue_eq_some h with ⟨ha, h1, _⟩
  rw [ha]
  simp [h1]

theorem primary_assigned_sublist_pool (rs : List Route) (cs : List String) :
    List.Sublist (primary_assigned_lcvs (primaryLoop rs cs)) cs := by
  induction rs generalizing cs with
  | nil => exact List.nil_sublist cs
  | cons r rs ih =>
    cases cs with
    | nil =>
      rw [primary_assigned_nil_pool]
    | cons c cs =>
      simp only [primaryLoop, primary_assigned_lcvs, List.filterMap_cons, mkAllocationInfo]
      by_cases hc : c = "Pending Re-allocation"
      · rw [if_pos hc]
        exact (ih cs).cons c
      · rw [if_neg hc]
        exact (ih cs).cons₂ c

theorem lcvs_from_other_stages_sublist_keys (cls : List (String × String)) (st : String)
    (pa : List String) :
    List.Sublist (lcvs_from_other_stages cls st pa) (cls.map Prod.fst) := by
  rw [← List.filterMap_eq_map Prod.fst, lcvs_from_other_stages]
  refine filterMap_sublist_of ?_ cls
  intro p v h
  by_cases hcond : p.2 ≠ st ∧ ¬ p.1 ∈ pa
  · rw [if_pos hcond] at h
    exact h
  · rw [if_neg hcond] at h
    cases h

theorem pending_filterMap_sublist (L : List AllocationInfo) (cand : List String)
    (hL : (L.map (fun a => a.request_id)).Nodup)
    (hpendAll : ∀ a ∈ L, a.allocated_lcv = some "Pending Re-allocation") :
    List.Sublist
      (L.filterMap (fun a =>
        assignedValue (loopOutcome (L.map (fun a => a.request_id)) cand a)))
      cand := by
  induction L generalizing cand with
  | nil => exact List.nil_sublist cand
  | cons a tl ih =>
    rw [List.map_cons, List.nodup_cons] at hL
    have hpa : a.allocated_lcv = some "Pending Re-allocation" :=
      hpendAll a (List.mem_cons_self a tl)
    cases cand with
    | nil =>
      have hall : ∀ b ∈ a :: tl,
          assignedValue (loopOutcome ((a :: tl).map (fun a => a.request_id)) [] b) = none := by
        intro b hb
        rcases hr : rankOf ((a :: tl).map (fun a => a.request_id)) b.request_id with _ | k
        · rw [loopOutcome_rank_none hr]
          exact assignedValue_pending (hpendAll b hb)
        · rw [loopOutcome_rank_some_none hr (by simp)]
          exact assignedValue_pending (hpendAll b hb)
      rw [List.filterMap_eq_nil_iff.mpr hall]
    | cons c cs =>
      rw [List.filterMap_cons]
      have hhead : loopOutcome ((a :: tl).map (fun a => a.request_id)) (c :: cs) a =
          reallocRec a c := by
        refine loopOutcome_rank_some_get ?_ (show (c :: cs)[0]? = some c by simp)
        rw [List.map_cons, rankOf, if_pos rfl]
      have htail : tl.filterMap (fun b =>
            assignedValue (loopOutcome ((a :: tl).map (fun a => a.request_id)) (c :: cs) b)) =
          tl.filterMap (fun b =>
            assignedValue (loopOutcome (tl.map (fun a => a.request_id)) cs b)) := by
        refine List.filterMap_congr ?_
        intro b hb
        rw [List.map_cons, loopOutcome_cons a.request_id (tl.map (fun a => a.request_id)) c cs
          hL.1 b, if_neg (fun he => hL.1 (by rw [← he]; exact List.mem_map_of_mem _ hb))]
      rw [hhead, htail]
      cases hv : assignedValue (reallocRec a c) with
      | none =>
        exact (ih cs hL.2 (fun b hb => hpendAll b (List.mem_cons_of_mem a hb))).cons c
      | some v =>
        have hvc : v = c := by
          rcases assignedValue_eq_some hv with ⟨hb, _, _⟩
          simp only [reallocRec] at hb
          cases hb
          rfl
        rw [hvc]
        exact (ih cs hL.2 (fun b hb => hpendAll b (List.mem_cons_of_mem a hb))).cons₂ c

/-- C9: with distinct request ids and duplicate-free vehicle pool and
classification keys, no vehicle id is bound to two routes in the final
output: the list of actually assigned vehicles has no duplicates, whether
vehicles were handed out by the primary pass, the secondary pass, or both. -/
theorem vehicle_uniqueness (sd : List Route) (pool : List String)
    (cls : List (String × String)) (st : String)
    (hrid : (sd.map (fun r => r.request_id)).Nodup)
    (hpool : pool.Nodup)
    (hcls : (cls.map Prod.fst).Nodup) :
    (assigned_lcvs (allocate_lcv_to_route sd pool cls st)).Nodup := by
  rw [allocate_lcv_to_route_eq_ite]
  have hprimnd : ((primary_allocations sd pool).map (fun a => a.request_id)).Nodup :=
    primary_allocations_nodup_rid pool hrid
  have hbase : (assigned_lcvs (final_cleanup (primary_allocations sd pool))).Nodup := by
    rw [assigned_lcvs_final_cleanup]
    exact List.Nodup.sublist
      ((assigned_sublist_primary_assigned _).trans (primary_assigned_sublist_pool _ _)) hpool
  split
  case isFalse h => exact hbase
  case isTrue h =>
    have hpn : ((isortAscBy (fun a => a.duration)
        ((primary_allocations sd pool).filter isPending)).map (fun a => a.request_id)).Nodup :=
      sorted_pending_nodup_rid hprimnd
    rw [assigned_lcvs_final_cleanup, secondaryLoop_eq_map _ _ _ hprimnd hpn, assigned_lcvs,
      List.filterMap_map]
    have hperm := (List.filter_append_perm isPending (primary_allocations sd pool)).filterMap
      (assignedValue ∘ loopOutcome
        ((isortAscBy (fun a => a.duration)
          ((primary_allocations sd pool).filter isPending)).map (fun a => a.request_id))
        (lcvs_from_other_stages cls st
          (primary_assigned_lcvs (primary_allocations sd pool))))
    refine hperm.nodup ?_
    rw [List.filterMap_append]
    have hNid : ((primary_allocations sd pool).filter (fun a => !isPending a)).filterMap
          (assignedValue ∘ loopOutcome
            ((isortAscBy (fun a => a.duration)
              ((primary_allocations sd pool).filter isPending)).map (fun a => a.request_id))
            (lcvs_from_other_stages cls st
              (primary_assigned_lcvs (primary_allocations sd pool)))) =
        ((primary_allocations sd pool).filter (fun a => !isPending a)).filterMap
          assignedValue := by
      refine List.filterMap_congr ?_
      intro a ha
      rcases List.mem_filter.mp ha with ⟨hamem, hanp⟩
      have hap : ¬ a.allocated_lcv = some "Pending Re-allocation" := by
        simpa [isPending] using hanp
      have hnm : ¬ a.request_id ∈ (isortAscBy (fun a => a.duration)
          ((primary_allocations sd pool).filter isPending)).map (fun a => a.request_id) := by
        intro hmem
        rcases List.mem_map.mp hmem with ⟨b, hb, hbrid⟩
        rcases List.mem_filter.mp ((isortAscBy_perm _ _).mem_iff.mp hb) with ⟨hbmem, hbpend⟩
        have hba : b = a := List.inj_on_of_nodup_map hprimnd hbmem hamem hbrid
        rw [hba] at hbpend
        exact hap (by simpa [isPending] using hbpend)
      simp only [Function.comp_apply]
      rw [loopOutcome_rank_none (rankOf_eq_none_of_not_mem hnm)]
    have hNpa : List.Sublist
        (((primary_allocations sd pool).filter (fun a => !isPending a)).filterMap
          (assignedValue ∘ loopOutcome
            ((isortAscBy (fun a => a.duration)
              ((primary_allocations sd pool).filter isPending)).map (fun a => a.request_id))
            (lcvs_from_other_stages cls st
              (primary_assigned_lcvs (primary_allocations sd pool)))))
        (primary_assigned_lcvs (primary_allocations sd pool)) := by
      rw [hNid]
      exact ((List.filter_sublist _).filterMap assignedValue).trans
        (assigned_sublist_primary_assigned _)
    have hPperm : List.Perm
        (((primary_allocations sd pool).filter isPending).filterMap
          (assignedValue ∘ loopOutcome
            ((isortAscBy (fun a => a.duration)
              ((primary_allocations sd pool).filter isPending)).map (fun a => a.request_id))
            (lcvs_from_other_stages cls st
              (primary_assigned_lcvs (primary_allocations sd pool)))))
        ((isortAscBy (fun a => a.duration)
            ((primary_allocations sd pool).filter isPending)).filterMap
          (assignedValue ∘ loopOutcome
            ((isortAscBy (fun a => a.duration)
              ((primary_allocations sd pool).filter isPending)).map (fun a => a.request_id))
            (lcvs_from_other_stages cls st
              (primary_assigned_lcvs (primary_allocations sd pool))))) :=
      ((isortAscBy_perm _ _).filterMap _).symm
    have hPsub : List.Sublist
        ((isortAscBy (fun a => a.duration)
            ((primary_allocations sd pool).filter isPending)).filterMap
          (assignedValue ∘ loopOutcome
            ((isortAscBy (fun a => a.duration)
              ((primary_allocations sd pool).filter isPending)).map (fun a => a.request_id))
            (lcvs_from_other_stages cls st
              (primary_assigned_lcvs (primary_allocations sd pool)))))
        (lcvs_from_other_stages cls st
          (primary_assigned_lcvs (primary_allocations sd pool))) := by
      refine pending_filterMap_sublist _ _ hpn ?_
      intro a ha
      rcases List.mem_filter.mp ((isortAscBy_perm _ _).mem_iff.mp ha) with ⟨_, hpend⟩
      simpa [isPending] using hpend
    have hcandnd : (lcvs_from_other_stages cls st
        (primary_assigned_lcvs (primary_allocations sd pool))).Nodup :=
      List.Nodup.sublist (lcvs_from_other_stages_sublist_keys cls st _) hcls
    refine List.Nodup.append (hPperm.nodup_iff.mpr (List.Nodup.sublist hPsub hcandnd)) ?_ ?_
    · exact List.Nodup.sublist
        (hNpa.trans (primary_assigned_sublist_pool _ _)) hpool
    · intro x hxP hxN
      have hxc : x ∈ lcvs_from_other_stages cls st
          (primary_assigned_lcvs (primary_allocations sd pool)) :=
        hPsub.subset (hPperm.mem_iff.mp hxP)
      have hxpa : x ∈ primary_assigned_lcvs (primary_allocations sd pool) :=
        hNpa.subset hxN
      rcases mem_lcvs_from_other_stages hxc with ⟨p, _, _, _, hnot⟩
      exact hnot hxpa

theorem vehicle_uniqueness_witness :
    (assigned_lcvs (allocate_lcv_to_route
      [mkRoute 1 10, mkRoute 2 20, mkRoute 3 30, mkRoute 4 40, mkRoute 5 50, mkRoute 6 60,
        mkRoute 7 70, mkRoute 8 80]
      ["P1", "P2", "P3"]
      [("P1", "S"), ("P2", "S"), ("P3", "S"), ("Q1", "T"), ("Q2", "T")] "S")).Nodup :=
  vehicle_uniqueness _ _ _ "S" (by decide) (by decide) (by decide)

/-! ### Lemmas about the classifier -/

theorem get_cons_eraseIdx_perm (l : List String) (j : Nat) (hj : j < l.length) :
    List.Perm (l.get ⟨j, hj⟩ :: l.eraseIdx j) l := by
  rw [List.eraseIdx_eq_take_drop_succ]
  refine List.perm_middle.symm.trans ?_
  simp only [List.get_eq_getElem]
  rw [List.getElem_cons_drop, List.take_append_drop]

theorem shuffleGo_perm (n : Nat) (g : Nat) (l : List String) (h : l.length ≤ n) :
    List.Perm (shuffleGo n g l) l := by
  induction n generalizing g l with
  | zero =>
    have : l = [] := List.eq_nil_of_length_eq_zero (Nat.le_zero.mp h)
    rw [this, shuffleGo]
  | succ n ih =>
    cases l with
    | nil => rw [shuffleGo]
    | cons x xs =>
      rw [shuffleGo]
      have hj : g % (x :: xs).length < (x :: xs).length := Nat.mod_lt g (Nat.succ_pos xs.length)
      have hlen : ((x :: xs).eraseIdx (g % (x :: xs).length)).length ≤ n := by
        rw [List.length_eraseIdx_of_lt hj]
        simpa using Nat.le_of_succ_le_succ h
      exact ((ih (lcgStep g) _ hlen).cons _).trans (get_cons_eraseIdx_perm (x :: xs) _ hj)

theorem shuffleWith_perm (g : Nat) (l : List String) : List.Perm (shuffleWith g l) l :=
  shuffleGo_perm l.length g l (Nat.le_refl _)

theorem uniqueFirstGo_subset (l : List (Option String)) :
    ∀ (seen : List (Option String)), ∀ y ∈ uniqueFirstGo seen l, y ∈ l := by
  induction l with
  | nil => intro seen y hy; cases hy
  | cons x xs ih =>
    intro seen y hy
    rw [uniqueFirstGo] at hy
    by_cases hx : x ∈ seen
    · rw [if_pos hx] at hy
      exact List.mem_cons_of_mem x (ih seen y hy)
    · rw [if_neg hx] at hy
      rcases List.mem_cons.mp hy with rfl | hy2
      · exact List.mem_cons_self y xs
      · exact List.mem_cons_of_mem x (ih (x :: seen) y hy2)

theorem uniqueFirstGo_not_mem_seen (l : List (Option String)) :
    ∀ (seen : List (Option String)), ∀ y ∈ uniqueFirstGo seen l, ¬ y ∈ seen := by
  induction l with
  | nil => intro seen y hy; cases hy
  | cons x xs ih =>
    intro seen y hy
    rw [uniqueFirstGo] at hy
    by_cases hx : x ∈ seen
    · rw [if_pos hx] at hy
      exact ih seen y hy
    · rw [if_neg hx] at hy
      rcases List.mem_cons.mp hy with rfl | hy2
      · exact hx
      · intro hseen
        exact ih (x :: seen) y hy2 (List.mem_cons_of_mem x hseen)

theorem uniqueFirstGo_nodup (l : List (Option String)) :
    ∀ (seen : List (Option String)), (uniqueFirstGo seen l).Nodup := by
  induction l with
  | nil => intro seen; exact List.nodup_nil
  | cons x xs ih =>
    intro seen
    rw [uniqueFirstGo]
    by_cases hx : x ∈ seen
    · rw [if_pos hx]
      exact ih seen
    · rw [if_neg hx]
      refine List.nodup_cons.mpr ⟨?_, ih (x :: seen)⟩
      intro hmem
      exact uniqueFirstGo_not_mem_seen xs (x :: seen) x hmem (List.mem_cons_self x seen)

theorem uniqueFirst_nodup (l : List (Option String)) : (uniqueFirst l).Nodup :=
  uniqueFirstGo_nodup l []

theorem unique_lcvs_nodup (lcv_ids : List (Option String)) : (unique_lcvs lcv_ids).Nodup := by
  refine List.Nodup.filterMap ?_ (uniqueFirst_nodup lcv_ids)
  intro a a' b hb hb'
  rw [Option.mem_def] at hb hb'
  exact hb.trans hb'.symm

theorem array_split3_append (l : List String) :
    (array_split3 l).1 ++ (array_split3 l).2.1 ++ (array_split3 l).2.2 = l := by
  simp only [array_split3]
  rw [List.append_assoc, List.take_append_drop, List.take_append_drop]

theorem array_split3_lengths (l : List String) :
    (array_split3 l).1.length = l.length / 3 + (if 1 ≤ l.length % 3 then 1 else 0) ∧
    (array_split3 l).2.1.length = l.length / 3 + (if 2 ≤ l.length % 3 then 1 else 0) ∧
    (array_split3 l).2.2.length = l.length / 3 := by
  refine ⟨?_, ?_, ?_⟩ <;>
    simp only [array_split3, List.length_take, List.length_drop] <;>
    by_cases h1 : 1 ≤ l.length % 3 <;> by_cases h2 : 2 ≤ l.length % 3 <;>
    simp [h1, h2] <;> omega

theorem classify_eq (lcv_ids : List (Option String)) (seed : Option Nat) (g : Nat) :
    classify_lcvs_equally lcv_ids seed g =
      (array_split3 (shuffleWith (seed_state seed g) (unique_lcvs lcv_ids))).1.map
          (fun l => (l, "Empty - Waiting Area")) ++
        (array_split3 (shuffleWith (seed_state seed g) (unique_lcvs lcv_ids))).2.1.map
          (fun l => (l, "Filling – Safe Zone")) ++
        (array_split3 (shuffleWith (seed_state seed g) (unique_lcvs lcv_ids))).2.2.map
          (fun l => (l, "Filled – Waiting Area/Moving to DBS")) := rfl

theorem stage_lcvs_append (c1 c2 : List (String × String)) (s : String) :
    stage_lcvs (c1 ++ c2) s = stage_lcvs c1 s ++ stage_lcvs c2 s :=
  List.filterMap_append c1 c2 _

theorem stage_lcvs_map_const (l : List String) (st s : String) :
    stage_lcvs (l.map (fun x => (x, st))) s = if st = s then l else [] := by
  rw [stage_lcvs, List.filterMap_map]
  by_cases h : st = s
  · rw [if_pos h]
    have hcong : ∀ x ∈ l,
        ((fun p : String × String => if p.2 = s then some p.1 else none) ∘
          (fun x => (x, st))) x = some x := by
      intro x _
      simp [Function.comp, h]
    rw [List.filterMap_congr hcong]
    exact List.filterMap_some l
  · rw [if_neg h]
    refine List.filterMap_eq_nil_iff.mpr ?_
    intro x _
    simp [Function.comp, h]

theorem classify_keys (lcv_ids : List (Option String)) (seed : Option Nat) (g : Nat) :
    (classify_lcvs_equally lcv_ids seed g).map Prod.fst =
      shuffleWith (seed_state seed g) (unique_lcvs lcv_ids) := by
  have h : ∀ (l : List String) (st : String),
      (l.map (fun x => (x, st))).map Prod.fst = l := by
    intro l st
    rw [List.map_map]
    exact map_eq_self_of (fun a _ => rfl)
  rw [classify_eq, List.map_append, List.map_append, h, h, h, array_split3_append]

theorem stage_lcvs_classify (lcv_ids : List (Option String)) (seed : Option Nat) (g : Nat) :
    stage_lcvs (classify_lcvs_equally lcv_ids seed g) "Empty - Waiting Area" =
        (array_split3 (shuffleWith (seed_state seed g) (unique_lcvs lcv_ids))).1 ∧
      stage_lcvs (classify_lcvs_equally lcv_ids seed g) "Filling – Safe Zone" =
        (array_split3 (shuffleWith (seed_state seed g) (unique_lcvs lcv_ids))).2.1 ∧
      stage_lcvs (classify_lcvs_equally lcv_ids seed g) "Filled – Waiting Area/Moving to DBS" =
        (array_split3 (shuffleWith (seed_state seed g) (unique_lcvs lcv_ids))).2.2 := by
  refine ⟨?_, ?_, ?_⟩ <;>
    rw [classify_eq, stage_lcvs_append, stage_lcvs_append, stage_lcvs_map_const,
      stage_lcvs_map_const, stage_lcvs_map_const] <;>
    simp

/-- C4: for every input id collection and every seed, the three stage
partitions together contain exactly the distinct non-null input ids — each
id classified into exactly one stage, no id in two stages, null ids never
classified — and an input with no non-null ids yields an empty
classification (all three partitions empty). -/
theorem classifier_partition (lcv_ids : List (Option String)) (seed : Option Nat) (g : Nat) :
    List.Perm
      (stage_lcvs (classify_lcvs_equally lcv_ids seed g) "Empty - Waiting Area" ++
        stage_lcvs (classify_lcvs_equally lcv_ids seed g) "Filling – Safe Zone" ++
        stage_lcvs (classify_lcvs_equally lcv_ids seed g)
          "Filled – Waiting Area/Moving to DBS")
      (unique_lcvs lcv_ids) ∧
    ((classify_lcvs_equally lcv_ids seed g).map Prod.fst).Nodup ∧
    List.Perm ((classify_lcvs_equally lcv_ids seed g).map Prod.fst) (unique_lcvs lcv_ids) ∧
    (∀ p ∈ classify_lcvs_equally lcv_ids seed g, p.2 ∈ stages) ∧
    List.Disjoint (stage_lcvs (classify_lcvs_equally lcv_ids seed g) "Empty - Waiting Area")
      (stage_lcvs (classify_lcvs_equally lcv_ids seed g) "Filling – Safe Zone") ∧
    List.Disjoint (stage_lcvs (classify_lcvs_equally lcv_ids seed g) "Empty - Waiting Area")
      (stage_lcvs (classify_lcvs_equally lcv_ids seed g)
        "Filled – Waiting Area/Moving to DBS") ∧
    List.Disjoint (stage_lcvs (classify_lcvs_equally lcv_ids seed g) "Filling – Safe Zone")
      (stage_lcvs (classify_lcvs_equally lcv_ids seed g)
        "Filled – Waiting Area/Moving to DBS") ∧
    (unique_lcvs lcv_ids = [] → classify_lcvs_equally lcv_ids seed g = []) := by
  rcases stage_lcvs_classify lcv_ids seed g with ⟨hp1, hp2, hp3⟩
  have hparts : stage_lcvs (classify_lcvs_equally lcv_ids seed g) "Empty - Waiting Area" ++
      stage_lcvs (classify_lcvs_equally lcv_ids seed g) "Filling – Safe Zone" ++
      stage_lcvs (classify_lcvs_equally lcv_ids seed g)
        "Filled – Waiting Area/Moving to DBS" =
      shuffleWith (seed_state seed g) (unique_lcvs lcv_ids) := by
    rw [hp1, hp2, hp3, array_split3_append]
  have hshufperm := shuffleWith_perm (seed_state seed g) (unique_lcvs lcv_ids)
  have hshufnd : (shuffleWith (seed_state seed g) (unique_lcvs lcv_ids)).Nodup :=
    hshufperm.nodup_iff.mpr (unique_lcvs_nodup lcv_ids)
  have hpartsnd := hparts ▸ hshufnd
  rcases List.nodup_append.mp hpartsnd with ⟨h12nd, _, hd123⟩
  rcases List.nodup_append.mp h12nd with ⟨_, _, hd12⟩
  refine ⟨hparts ▸ hshufperm, ?_, ?_, ?_, hd12, ?_, ?_, ?_⟩
  · rw [classify_keys]
    exact hshufnd
  · rw [classify_keys]
    exact hshufperm
  · intro p hp
    rw [classify_eq] at hp
    rcases List.mem_append.mp hp with hp12 | hp3m
    · rcases List.mem_append.mp hp12 with hp1m | hp2m
      · rcases List.mem_map.mp hp1m with ⟨x, _, rfl⟩
        simp [stages]
      · rcases List.mem_map.mp hp2m with ⟨x, _, rfl⟩
        simp [stages]
    · rcases List.mem_map.mp hp3m with ⟨x, _, rfl⟩
      simp [stages]
  · intro x hx1 hx3
    exact hd123 (List.mem_append_left _ hx1) hx3
  · intro x hx2 hx3
    exact hd123 (List.mem_append_right _ hx2) hx3
  · intro hu
    rw [classify_eq, hu]
    simp [shuffleWith, shuffleGo, array_split3]

theorem classifier_partition_witness :
    List.Perm
      (stage_lcvs (classify_lcvs_equally [some "a", none, some "b", some "a", some "c"]
          (some 5) 0) "Empty - Waiting Area" ++
        stage_lcvs (classify_lcvs_equally [some "a", none, some "b", some "a", some "c"]
          (some 5) 0) "Filling – Safe Zone" ++
        stage_lcvs (classify_lcvs_equally [some "a", none, some "b", some "a", some "c"]
          (some 5) 0) "Filled – Waiting Area/Moving to DBS")
      (unique_lcvs [some "a", none, some "b", some "a", some "c"]) :=
  (classifier_partition [some "a", none, some "b", some "a", some "c"] (some 5) 0).1

/-- C5: the classifier is deterministic under a fixed seed — its output with
`seed = some s` does not depend on the ambient generator state, so two
invocations with identical input and seed agree — while two seeds may
legitimately produce different classifications, witnessed by seeds 0 and 1
on a two-vehicle input. -/
theorem classifier_determinism :
    (∀ (lcv_ids : List (Option String)) (s : Nat) (g1 g2 : Nat),
      classify_lcvs_equally lcv_ids (some s) g1 = classify_lcvs_equally lcv_ids (some s) g2) ∧
    classify_lcvs_equally [some "x", some "y"] (some 0) 0 ≠
      classify_lcvs_equally [some "x", some "y"] (some 1) 0 := by
  constructor
  · intro lcv_ids s g1 g2
    rfl
  · decide

/-- C6: for every input and seed the classifier splits the shuffled
deduplicated id list into three contiguous segments whose sizes differ by at
most one, assigned to the three stages in fixed order. -/
theorem classifier_balance (lcv_ids : List (Option String)) (seed : Option Nat) (g : Nat) :
    (max (array_split3 (shuffleWith (seed_state seed g) (unique_lcvs lcv_ids))).1.length
        (max (array_split3 (shuffleWith (seed_state seed g) (unique_lcvs lcv_ids))).2.1.length
          (array_split3 (shuffleWith (seed_state seed g) (unique_lcvs lcv_ids))).2.2.length) -
      min (array_split3 (shuffleWith (seed_state seed g) (unique_lcvs lcv_ids))).1.length
        (min (array_split3 (shuffleWith (seed_state seed g) (unique_lcvs lcv_ids))).2.1.length
          (array_split3 (shuffleWith (seed_state seed g) (unique_lcvs lcv_ids))).2.2.length)
      ≤ 1) ∧
    (array_split3 (shuffleWith (seed_state seed g) (unique_lcvs lcv_ids))).1 ++
        (array_split3 (shuffleWith (seed_state seed g) (unique_lcvs lcv_ids))).2.1 ++
        (array_split3 (shuffleWith (seed_state seed g) (unique_lcvs lcv_ids))).2.2 =
      shuffleWith (seed_state seed g) (unique_lcvs lcv_ids) ∧
    classify_lcvs_equally lcv_ids seed g =
      (array_split3 (shuffleWith (seed_state seed g) (unique_lcvs lcv_ids))).1.map
          (fun l => (l, "Empty - Waiting Area")) ++
        (array_split3 (shuffleWith (seed_state seed g) (unique_lcvs lcv_ids))).2.1.map
          (fun l => (l, "Filling – Safe Zone")) ++
        (array_split3 (shuffleWith (seed_state seed g) (unique_lcvs lcv_ids))).2.2.map
          (fun l => (l, "Filled – Waiting Area/Moving to DBS")) := by
  refine ⟨?_, array_split3_append _, classify_eq lcv_ids seed g⟩
  rcases array_split3_lengths (shuffleWith (seed_state seed g) (unique_lcvs lcv_ids))
    with ⟨h1, h2, h3⟩
  rw [h1, h2, h3]
  by_cases ha : 1 ≤ (shuffleWith (seed_state seed g) (unique_lcvs lcv_ids)).length % 3 <;>
    by_cases hb : 2 ≤ (shuffleWith (seed_state seed g) (unique_lcvs lcv_ids)).length % 3 <;>
    simp only [ha, hb, if_true, if_false, ite_true, ite_false] <;> omega

/-! ### Lemmas for the frame property -/

theorem getD_of_length_le (store : Store) (loc : Nat) (h : store.length ≤ loc) :
    store.getD loc [] = [] := by
  rw [List.getD_eq_getElem?_getD, List.getElem?_eq_none h]
  rfl

theorem lt_length_of_getD_ne_nil {store : Store} {loc : Nat}
    (h : store.getD loc [] ≠ []) : loc < store.length := by
  by_contra hge
  exact h (getD_of_length_le store loc (Nat.le_of_not_lt hge))

theorem primaryLoopSt_fst (rs : List Route) (loc : Nat) (store : Store) :
    (primaryLoopSt rs loc store).1 = primaryLoop rs (store.getD loc []) := by
  induction rs generalizing store with
  | nil => rw [primaryLoopSt, primaryLoop]
  | cons r rs ih =>
    cases hgd : store.getD loc [] with
    | nil =>
      rw [primaryLoopSt, hgd]
      simp only []
      rw [primaryLoop, ih store, hgd]
    | cons c cs =>
      have hlt : loc < store.length :=
        lt_length_of_getD_ne_nil (by rw [hgd]; exact List.cons_ne_nil c cs)
      have hset : (store.set loc cs).getD loc [] = cs := by
        rw [List.getD_eq_getElem?_getD, List.getElem?_set_self hlt]
        rfl
      rw [primaryLoopSt, hgd]
      simp only []
      rw [primaryLoop, ih (store.set loc cs), hset]

theorem primaryLoopSt_snd_getD (rs : List Route) (loc : Nat) (store : Store) (j : Nat)
    (hj : j ≠ loc) :
    ((primaryLoopSt rs loc store).2).getD j [] = store.getD j [] := by
  induction rs generalizing store with
  | nil => rw [primaryLoopSt]
  | cons r rs ih =>
    cases hgd : store.getD loc [] with
    | nil =>
      rw [primaryLoopSt, hgd]
      simp only []
      exact ih store
    | cons c cs =>
      rw [primaryLoopSt, hgd]
      simp only []
      rw [ih (store.set loc cs), List.getD_eq_getElem?_getD, List.getD_eq_getElem?_getD,
        List.getElem?_set_ne (fun he => hj he.symm)]

theorem primaryLoopSt_snd_length (rs : List Route) (loc : Nat) (store : Store) :
    ((primaryLoopSt rs loc store).2).length = store.length := by
  induction rs generalizing store with
  | nil => rw [primaryLoopSt]
  | cons r rs ih =>
    cases hgd : store.getD loc [] with
    | nil =>
      rw [primaryLoopSt, hgd]
      simp only []
      exact ih store
    | cons c cs =>
      rw [primaryLoopSt, hgd]
      simp only []
      rw [ih (store.set loc cs), List.length_set]

theorem allocate_st_fst (sd : List Route) (poolLoc : Nat) (cls : List (String × String))
    (st : String) (store : Store) :
    (allocate_lcv_to_route_st sd poolLoc cls st store).1 =
      allocate_lcv_to_route sd (store.getD poolLoc []) cls st := by
  have hcopy : (store ++ [store.getD poolLoc []]).getD store.length [] =
      store.getD poolLoc [] := by
    rw [List.getD_eq_getElem?_getD, List.getElem?_append_right (Nat.le_refl _)]
    simp
  simp only [allocate_lcv_to_route_st, allocate_lcv_to_route, primaryLoopSt_fst, hcopy,
    primary_allocations]

theorem allocate_st_snd_getD (sd : List Route) (poolLoc : Nat) (cls : List (String × String))
    (st : String) (store : Store) (hlt : poolLoc < store.length) :
    ((allocate_lcv_to_route_st sd poolLoc cls st store).2).getD poolLoc [] =
      store.getD poolLoc [] := by
  simp only [allocate_lcv_to_route_st]
  rw [primaryLoopSt_snd_getD _ _ _ _ (Nat.ne_of_lt hlt), List.getD_eq_getElem?_getD,
    List.getElem?_append_left hlt, List.getD_eq_getElem?_getD]

theorem allocate_st_snd_length (sd : List Route) (poolLoc : Nat)
    (cls : List (String × String)) (st : String) (store : Store) :
    ((allocate_lcv_to_route_st sd poolLoc cls st store).2).length = store.length + 1 := by
  simp only [allocate_lcv_to_route_st]
  rw [primaryLoopSt_snd_length]
  simp

/-- C10: the allocator does not mutate its inputs — the pool list object it
receives is copied into a fresh location before the FIFO pops, so after any
call the pool location holds exactly its pre-call value, the records
returned are a pure function of the values read, and an immediately
repeated call on the post-call heap returns the same records. -/
theorem allocator_frame (sd : List Route) (poolLoc : Nat) (cls : List (String × String))
    (st : String) (store : Store) (hlt : poolLoc < store.length) :
    ((allocate_lcv_to_route_st sd poolLoc cls st store).2).getD poolLoc [] =
        store.getD poolLoc [] ∧
      (allocate_lcv_to_route_st sd poolLoc cls st store).1 =
        allocate_lcv_to_route sd (store.getD poolLoc []) cls st ∧
      (allocate_lcv_to_route_st sd poolLoc cls st
          ((allocate_lcv_to_route_st sd poolLoc cls st store).2)).1 =
        (allocate_lcv_to_route_st sd poolLoc cls st store).1 := by
  refine ⟨allocate_st_snd_getD sd poolLoc cls st store hlt,
    allocate_st_fst sd poolLoc cls st store, ?_⟩
  rw [allocate_st_fst, allocate_st_fst, allocate_st_snd_getD sd poolLoc cls st store hlt]

theorem allocator_frame_witness :
    (0 : Nat) < ([["A", "B"]] : Store).length ∧
      ((allocate_lcv_to_route_st [mkRoute 1 10, mkRoute 2 50, mkRoute 3 30] 0 [] "S"
          [["A", "B"]]).2).getD 0 [] = (([["A", "B"]] : Store)).getD 0 [] :=
  ⟨by decide,
    (allocator_frame [mkRoute 1 10, mkRoute 2 50, mkRoute 3 30] 0 [] "S" [["A", "B"]]
      (by decide)).1⟩

end LCVApp
